import Mathlib

/-!
Shallow embedding of `tools/eslint-rules/required-modules.js`, an ESLint rule
that checks that every configured "required module" is referenced somewhere in
the analyzed file, either by an `ImportDeclaration` (ESM mode) or by a
`require(...)` call (script mode), and reports one diagnostic per missing
module at `Program:exit`.
-/

namespace RequiredModules

/-- Scan of `path.basename`: walk the characters keeping the segment being
read (`cur`) and the last non-empty segment completed so far (`last`). -/
def lastSegment : List Char → List Char → List Char → List Char
  | [], cur, last => if cur = [] then last else cur
  | c :: cs, cur, last =>
      if c = '/' then lastSegment cs [] (if cur = [] then last else cur)
      else lastSegment cs (cur ++ [c]) last

/-- Node.js `path.basename` (POSIX, no extension argument): the last non-empty
`/`-separated segment of the path, or `""` when there is none (e.g. `""`,
`"/"`, `"//"`). -/
def basename (s : String) : String :=
  ⟨lastSegment s.data [] []⟩

/-- Drop the leading whitespace characters of a character list. -/
def dropLeadingWS : List Char → List Char
  | [] => []
  | c :: cs => if c.isWhitespace then dropLeadingWS cs else c :: cs

/-- JavaScript `String.prototype.trim()`: strip whitespace from both ends
(modelled for the ASCII whitespace relevant here). -/
def jsTrim (s : String) : String :=
  ⟨((dropLeadingWS ((dropLeadingWS s.data).reverse)).reverse)⟩

/-- The value carried by a `Literal` AST node: a string, or some other
primitive (`typeof node.value === 'string'` is false). -/
inductive LitValue where
  | str (s : String)
  | nonStr
deriving DecidableEq, Repr

/-- An expression in argument position of a call. -/
inductive ArgNode where
  | literal (value : LitValue)
  | nonLiteral
deriving DecidableEq, Repr

/-- The callee of a `CallExpression`: an `Identifier` node carrying its name,
or any other shape (member expression, computed callee, ...). -/
inductive Callee where
  | ident (name : String)
  | other
deriving DecidableEq, Repr

/-- The AST nodes the registered visit handlers can receive. -/
inductive ASTNode where
  | callExpr (callee : Callee) (arguments : List ArgNode)
  | importDecl (source : String)
  | otherNode
deriving DecidableEq, Repr

/-- `isString(node)`: node is a `Literal` whose value is a string. -/
def isString : ArgNode → Bool
  | .literal (.str _) => true
  | _ => false

/-- `isRequireCall(node)`: the callee is an `Identifier` named `require`.
Stated on the callee, which is the only field the source reads. -/
def isRequireCall : Callee → Bool
  | .ident name => name = "require"
  | .other => false

/-- `getRequiredModuleName(str)`: the hard-coded alias `../common/index.mjs`
resolves to `common`; otherwise the basename, if it occurs in
`requiredModules` (`indexOf(value) !== -1`). -/
def getRequiredModuleName (requiredModules : List String) (str : String) :
    Option String :=
  if str = "../common/index.mjs" then some "common"
  else
    let value := basename str
    if requiredModules.contains value then some value else none

/-- `getRequiredModuleNameFromCall(node)`: if the call has arguments and the
first is a string literal, resolve its trimmed value; otherwise `undefined`. -/
def getRequiredModuleNameFromCall (requiredModules : List String)
    (arguments : List ArgNode) : Option String :=
  match arguments with
  | .literal (.str s) :: _ => getRequiredModuleName requiredModules (jsTrim s)
  | _ => none

/-- `if (requiredModuleName) foundModules.push(requiredModuleName)`: a JS
string is truthy iff it is non-empty, so an empty resolved name is dropped. -/
def pushIfTruthy (foundModules : List String) : Option String → List String
  | some name => if name = "" then foundModules else foundModules ++ [name]
  | none => foundModules

/-- The `ImportDeclaration` handler (registered in ESM mode): resolves
`node.source.value` directly — note, without trimming. -/
def importDeclarationVisit (requiredModules foundModules : List String)
    (node : ASTNode) : List String :=
  match node with
  | .importDecl source =>
      pushIfTruthy foundModules (getRequiredModuleName requiredModules source)
  | _ => foundModules

/-- The `CallExpression` handler (registered in script mode). -/
def callExpressionVisit (requiredModules foundModules : List String)
    (node : ASTNode) : List String :=
  match node with
  | .callExpr callee arguments =>
      if isRequireCall callee then
        pushIfTruthy foundModules
          (getRequiredModuleNameFromCall requiredModules arguments)
      else foundModules
  | _ => foundModules

/-- The rule's per-file context: `context.options` (the required modules) and
`context.parserOptions.sourceType === 'module'`. -/
structure Context where
  options : List String
  isESM : Bool
deriving DecidableEq, Repr

/-- One node-visit step of the registered handler for the selected mode. -/
def visit (ctx : Context) (foundModules : List String) (node : ASTNode) :
    List String :=
  if ctx.isESM then importDeclarationVisit ctx.options foundModules node
  else callExpressionVisit ctx.options foundModules node

/-- The state of `foundModules` after the driver has visited every node of the
file, starting from the empty array. -/
def runTraversal (ctx : Context) (file : List ASTNode) : List String :=
  file.foldl (visit ctx) []

/-- The `Program:exit` handler: only when `foundModules.length <
requiredModules.length` does it compute the missing modules
(`requiredModules.filter((m) => foundModules.indexOf(m) === -1)`) and report
one diagnostic per entry, in that order. The result is the list of reported
`moduleName` substitutions. -/
def programExit (requiredModules foundModules : List String) : List String :=
  if foundModules.length < requiredModules.length then
    requiredModules.filter (fun m => !foundModules.contains m)
  else []

/-- The message each diagnostic carries, after substituting `moduleName` into
the fixed template. -/
def diagnosticMessage (moduleName : String) : String :=
  "Mandatory module \"" ++ moduleName ++ "\" must be loaded."

/-- Whole-file analysis: with an empty configuration the rule returns an empty
handler object (no visits, no `Program:exit`), hence no diagnostics; otherwise
the diagnostics are those of `Program:exit` over the accumulated
`foundModules`. Returns the reported missing module names in report order. -/
def analyze (ctx : Context) (file : List ASTNode) : List String :=
  if ctx.options.length = 0 then []
  else programExit ctx.options (runTraversal ctx file)

/-- Which handlers the rule registers on the handler object it returns. -/
structure Rules where
  hasProgramExit : Bool
  hasImportDeclaration : Bool
  hasCallExpression : Bool
deriving DecidableEq, Repr

/-- The handler registration of `module.exports`: nothing for an empty
configuration; otherwise `Program:exit` plus exactly one of
`ImportDeclaration` (ESM) or `CallExpression` (script). -/
def registeredRules (ctx : Context) : Rules :=
  if ctx.options.length = 0 then ⟨false, false, false⟩
  else ⟨true, ctx.isESM, !ctx.isESM⟩

/-- The import sources appearing in a file, in order. -/
def importSources : List ASTNode → List String
  | [] => []
  | .importDecl s :: rest => s :: importSources rest
  | _ :: rest => importSources rest

/-- Modelled from the spec (for comparison with `getRequiredModuleName`): the
Canonical Name Resolver as the spec words it for both modes — trim first, then
the alias check, then basename membership. -/
def specCanonicalResolve (requiredModules : List String) (str : String) :
    Option String :=
  let t := jsTrim str
  if t = "../common/index.mjs" then some "common"
  else if requiredModules.contains (basename t) then some (basename t)
  else none

/-! ## Helper lemmas -/

/-- A name resolved by `getRequiredModuleName` is `"common"` (the alias) or a
member of the required list. -/
theorem mem_of_getRequiredModuleName {required : List String} {s n : String}
    (h : getRequiredModuleName required s = some n) :
    n = "common" ∨ n ∈ required := by
  unfold getRequiredModuleName at h
  split at h
  · exact Or.inl (Option.some.inj h).symm
  · simp only at h
    split at h
    · exact Or.inr ((Option.some.inj h) ▸ List.elem_iff.mp (by assumption))
    · exact absurd h (by simp)

/-- A name resolved by `getRequiredModuleNameFromCall` is `"common"` or a
member of the required list. -/
theorem mem_of_getRequiredModuleNameFromCall {required : List String}
    {args : List ArgNode} {n : String}
    (h : getRequiredModuleNameFromCall required args = some n) :
    n = "common" ∨ n ∈ required := by
  unfold getRequiredModuleNameFromCall at h
  split at h
  · exact mem_of_getRequiredModuleName h
  · exact absurd h (by simp)

/-- `pushIfTruthy` only ever appends to its accumulator. -/
theorem pushIfTruthy_eq_append (found : List String) (o : Option String) :
    pushIfTruthy found o = found ++ pushIfTruthy [] o := by
  cases o with
  | none => simp [pushIfTruthy]
  | some n =>
      by_cases h : n = "" <;> simp [pushIfTruthy, h]

/-- A member of `pushIfTruthy [] o` is the resolved name. -/
theorem mem_pushIfTruthy_nil {o : Option String} {x : String}
    (hx : x ∈ pushIfTruthy [] o) : o = some x := by
  cases o with
  | none => simp [pushIfTruthy] at hx
  | some n =>
      simp only [pushIfTruthy] at hx
      split at hx
      · simp at hx
      · simp at hx
        exact hx ▸ rfl

/-- The ESM handler only ever appends to `foundModules`. -/
theorem importDeclarationVisit_eq_append (required found : List String)
    (node : ASTNode) :
    importDeclarationVisit required found node =
      found ++ importDeclarationVisit required [] node := by
  cases node with
  | importDecl s => exact pushIfTruthy_eq_append found _
  | callExpr c a => simp [importDeclarationVisit]
  | otherNode => simp [importDeclarationVisit]

/-- The script-mode handler only ever appends to `foundModules`. -/
theorem callExpressionVisit_eq_append (required found : List String)
    (node : ASTNode) :
    callExpressionVisit required found node =
      found ++ callExpressionVisit required [] node := by
  cases node with
  | callExpr c a =>
      have e1 : callExpressionVisit required found (ASTNode.callExpr c a) =
          if isRequireCall c then
            pushIfTruthy found (getRequiredModuleNameFromCall required a)
          else found := rfl
      have e2 : callExpressionVisit required [] (ASTNode.callExpr c a) =
          if isRequireCall c then
            pushIfTruthy [] (getRequiredModuleNameFromCall required a)
          else [] := rfl
      by_cases h : isRequireCall c = true
      · rw [e1, e2, if_pos h, if_pos h]
        exact pushIfTruthy_eq_append found _
      · rw [e1, e2, if_neg h, if_neg h]
        simp
  | importDecl s => simp [callExpressionVisit]
  | otherNode => simp [callExpressionVisit]

/-- Each visit handler only ever appends to `foundModules`. -/
theorem visit_eq_append (ctx : Context) (found : List String) (node : ASTNode) :
    visit ctx found node = found ++ visit ctx [] node := by
  unfold visit
  by_cases hE : ctx.isESM = true
  · rw [if_pos hE, if_pos hE]
    exact importDeclarationVisit_eq_append ctx.options found node
  · rw [if_neg hE, if_neg hE]
    exact callExpressionVisit_eq_append ctx.options found node

/-- Folding the visit handler over any node list only appends to the
accumulator. -/
theorem foldl_visit_append (ctx : Context) (nodes : List ASTNode) :
    ∀ found : List String,
      List.foldl (visit ctx) found nodes =
        found ++ List.foldl (visit ctx) [] nodes := by
  induction nodes with
  | nil => intro found; simp
  | cons n rest ih =>
      intro found
      simp only [List.foldl_cons]
      rw [ih (visit ctx found n), ih (visit ctx [] n), visit_eq_append ctx found n,
        List.append_assoc]

/-- A name produced by the ESM handler from the empty accumulator is the
alias `"common"` or a configured required name. -/
theorem mem_importDeclarationVisit_nil {required : List String} {node : ASTNode}
    {x : String} (hx : x ∈ importDeclarationVisit required [] node) :
    x = "common" ∨ x ∈ required := by
  cases node with
  | importDecl s => exact mem_of_getRequiredModuleName (mem_pushIfTruthy_nil hx)
  | callExpr c a => simp [importDeclarationVisit] at hx
  | otherNode => simp [importDeclarationVisit] at hx

/-- A name produced by the script-mode handler from the empty accumulator is
the alias `"common"` or a configured required name. -/
theorem mem_callExpressionVisit_nil {required : List String} {node : ASTNode}
    {x : String} (hx : x ∈ callExpressionVisit required [] node) :
    x = "common" ∨ x ∈ required := by
  cases node with
  | callExpr c a =>
      have e : callExpressionVisit required [] (ASTNode.callExpr c a) =
          if isRequireCall c then
            pushIfTruthy [] (getRequiredModuleNameFromCall required a)
          else [] := rfl
      rw [e] at hx
      split at hx
      · exact mem_of_getRequiredModuleNameFromCall (mem_pushIfTruthy_nil hx)
      · simp at hx
  | importDecl s => simp [callExpressionVisit] at hx
  | otherNode => simp [callExpressionVisit] at hx

/-- A name produced by a single visit starting from the empty accumulator is
the alias `"common"` or a configured required name. -/
theorem mem_visit_nil {ctx : Context} {node : ASTNode} {x : String}
    (hx : x ∈ visit ctx [] node) : x = "common" ∨ x ∈ ctx.options := by
  unfold visit at hx
  by_cases hE : ctx.isESM = true
  · rw [if_pos hE] at hx
    exact mem_importDeclarationVisit_nil hx
  · rw [if_neg hE] at hx
    exact mem_callExpressionVisit_nil hx

/-- Membership invariant for the traversal fold. -/
theorem mem_foldl_visit (ctx : Context) (nodes : List ASTNode) :
    ∀ (found : List String) (x : String),
      x ∈ List.foldl (visit ctx) found nodes →
        x ∈ found ∨ x = "common" ∨ x ∈ ctx.options := by
  induction nodes with
  | nil => intro found x hx; exact Or.inl hx
  | cons n rest ih =>
      intro found x hx
      rcases ih (visit ctx found n) x hx with h | h
      · rw [visit_eq_append] at h
        rcases List.mem_append.mp h with h' | h'
        · exact Or.inl h'
        · exact Or.inr (mem_visit_nil h')
      · exact Or.inr h

/-- In ESM mode, if every import source resolves to a non-empty name, the fold
appends exactly one entry per import declaration. -/
theorem esm_foldl_length (required : List String) (file : List ASTNode) :
    ∀ found : List String,
      (∀ s ∈ importSources file,
        ∃ n, getRequiredModuleName required s = some n ∧ n ≠ "") →
      (List.foldl (visit ⟨required, true⟩) found file).length =
        found.length + (importSources file).length := by
  induction file with
  | nil => intro found _; simp [importSources]
  | cons node rest ih =>
      intro found h
      cases node with
      | importDecl s =>
          obtain ⟨n, hn, hne⟩ := h s (by simp [importSources])
          have hv : visit ⟨required, true⟩ found (ASTNode.importDecl s) =
              found ++ [n] := by
            show pushIfTruthy found (getRequiredModuleName required s) = found ++ [n]
            rw [hn]
            show (if n = "" then found else found ++ [n]) = found ++ [n]
            rw [if_neg hne]
          simp only [List.foldl_cons, hv]
          rw [ih (found ++ [n])
            (fun s' hs' => h s' (by simp only [importSources]; exact List.mem_cons_of_mem s hs'))]
          have hsrc : importSources (ASTNode.importDecl s :: rest) =
              s :: importSources rest := rfl
          rw [hsrc]
          simp only [List.length_append, List.length_cons, List.length_nil]
          omega
      | callExpr c a =>
          have hv : visit ⟨required, true⟩ found (ASTNode.callExpr c a) = found := rfl
          simp only [List.foldl_cons, hv]
          exact ih found (fun s' hs' => h s' hs')
      | otherNode =>
          have hv : visit ⟨required, true⟩ found ASTNode.otherNode = found := rfl
          simp only [List.foldl_cons, hv]
          exact ih found (fun s' hs' => h s' hs')

/-! ## Claim theorems -/

/-- C1 (counterexample): with `required = ["a"]`, a script-mode file whose only
reference is `require('../common/index.mjs')` has no visited reference
resolving to `"a"`, yet `Program:exit` emits no diagnostic at all (the claim
demands exactly one naming `"a"`): the alias pushes `"common"` onto
`foundModules`, which defeats the `foundModules.length < requiredModules.length`
guard. -/
theorem c1_counterexample :
    "a" ∉ runTraversal ⟨["a"], false⟩
        [ASTNode.callExpr (Callee.ident "require")
          [ArgNode.literal (LitValue.str "../common/index.mjs")]] ∧
      analyze ⟨["a"], false⟩
        [ASTNode.callExpr (Callee.ident "require")
          [ArgNode.literal (LitValue.str "../common/index.mjs")]] = [] := by
  constructor
  · decide
  · decide

/-- C1 (amended): for a non-empty required configuration with unique entries,
if no visited reference resolved to required module `X` and — as the code
additionally demands — fewer names were accumulated than there are required
modules, then `Program:exit` reports `X` exactly once (its diagnostic message
being the template with `X` substituted), and the reported missing modules are
a sublist of `RequiredModuleSet`, i.e. they follow the configured order, not
discovery order. -/
theorem c1_amended_missing_reported_once (ctx : Context) (file : List ASTNode)
    (X : String) (hX : X ∈ ctx.options) (hnodup : ctx.options.Nodup)
    (hmiss : X ∉ runTraversal ctx file)
    (hguard : (runTraversal ctx file).length < ctx.options.length) :
    (analyze ctx file).count X = 1 ∧ (analyze ctx file).Sublist ctx.options := by
  have hne : ¬ ctx.options.length = 0 := by
    intro h0
    rw [List.length_eq_zero] at h0
    rw [h0] at hX
    exact absurd hX (List.not_mem_nil X)
  unfold analyze programExit
  rw [if_neg hne, if_pos hguard]
  constructor
  · have hp : (!(runTraversal ctx file).contains X) = true := by
      rw [Bool.not_eq_true']
      rw [← Bool.not_eq_true]
      intro hmem
      exact hmiss (List.elem_iff.mp hmem)
    rw [List.count_filter
      (p := fun m => !(runTraversal ctx file).contains m) hp]
    exact List.count_eq_one_of_mem hnodup hX
  · exact List.filter_sublist _

/-- C1 (witness): `required = ["a", "b"]`, script-mode file with one call
`require('p/b')`: the guard holds (`1 < 2`), `"a"` was never resolved, and the
analysis reports `"a"` exactly once, in configured order. -/
theorem c1_amended_witness :
    ("a" ∈ (["a", "b"] : List String)) ∧
      (["a", "b"] : List String).Nodup ∧
      "a" ∉ runTraversal ⟨["a", "b"], false⟩
        [ASTNode.callExpr (Callee.ident "require")
          [ArgNode.literal (LitValue.str "p/b")]] ∧
      (runTraversal ⟨["a", "b"], false⟩
        [ASTNode.callExpr (Callee.ident "require")
          [ArgNode.literal (LitValue.str "p/b")]]).length <
        (["a", "b"] : List String).length ∧
      (analyze ⟨["a", "b"], false⟩
        [ASTNode.callExpr (Callee.ident "require")
          [ArgNode.literal (LitValue.str "p/b")]]).count "a" = 1 ∧
      (analyze ⟨["a", "b"], false⟩
        [ASTNode.callExpr (Callee.ident "require")
          [ArgNode.literal (LitValue.str "p/b")]]).Sublist ["a", "b"] := by
  refine ⟨by decide, by decide, by decide, by decide, ?_⟩
  exact c1_amended_missing_reported_once ⟨["a", "b"], false⟩
    [ASTNode.callExpr (Callee.ident "require")
      [ArgNode.literal (LitValue.str "p/b")]] "a"
    (by decide) (by decide) (by decide) (by decide)

/-- C2 (counterexample): with `required = ["common"]`, the call argument
`'../../common/index.mjs'` resolves to nothing (its basename `index.mjs` is
not in the list), so it does not satisfy the requirement on `"common"` and the
analysis reports `"common"`; moreover with `required = ["index.mjs"]` the same
argument resolves to `index.mjs`, satisfying a requirement literally named
`"index.mjs"` — both halves contradicting the claim. -/
theorem c2_counterexample :
    getRequiredModuleName ["common"] (jsTrim "../../common/index.mjs") = none ∧
      analyze ⟨["common"], false⟩
        [ASTNode.callExpr (Callee.ident "require")
          [ArgNode.literal (LitValue.str "../../common/index.mjs")]] =
        ["common"] ∧
      getRequiredModuleName ["index.mjs"] (jsTrim "../../common/index.mjs") =
        some "index.mjs" := by
  refine ⟨by decide, by decide, by decide⟩

/-- C2 (amended): only the exact path `'../common/index.mjs'` is aliased to
`common`: `require('../common/index.mjs')` satisfies a requirement on
`"common"` and never one named `"index.mjs"` (it always resolves to
`common`), while `require('../../common/index.mjs')` resolves to its basename
`index.mjs`, hence does not satisfy a requirement on `"common"` but does
satisfy one literally named `"index.mjs"`. -/
theorem c2_amended_alias_exact_only :
    getRequiredModuleName ["common"] (jsTrim "../common/index.mjs") =
        some "common" ∧
      analyze ⟨["common"], false⟩
        [ASTNode.callExpr (Callee.ident "require")
          [ArgNode.literal (LitValue.str "../common/index.mjs")]] = [] ∧
      getRequiredModuleName ["index.mjs"] (jsTrim "../common/index.mjs") =
        some "common" ∧
      getRequiredModuleName ["common"] (jsTrim "../../common/index.mjs") =
        none ∧
      getRequiredModuleName ["index.mjs"] (jsTrim "../../common/index.mjs") =
        some "index.mjs" := by
  refine ⟨by decide, by decide, by decide, by decide, by decide⟩

/-- C3 (counterexample): with `required = ["common", "fs"]`, a script-mode
file containing `require('../common/index.mjs')` and `require('./fs.js')`
produces one diagnostic (for `"fs"`), not zero: the basename of `./fs.js` is
`fs.js`, which is not an exact member of the required list. -/
theorem c3_counterexample :
    analyze ⟨["common", "fs"], false⟩
      [ASTNode.callExpr (Callee.ident "require")
        [ArgNode.literal (LitValue.str "../common/index.mjs")],
       ASTNode.callExpr (Callee.ident "require")
        [ArgNode.literal (LitValue.str "./fs.js")]] = ["fs"] := by
  decide

/-- C3 (amended): with `required = ["common", "fs"]`, a script-mode file
containing `require('../common/index.mjs')` and a call whose argument's
basename is exactly `fs` — e.g. `require('./fs')` — produces zero
diagnostics; the claim's `require('./fs.js')` fails only because
`basename('./fs.js') = 'fs.js' ≠ 'fs'`. -/
theorem c3_amended_zero_diagnostics :
    analyze ⟨["common", "fs"], false⟩
      [ASTNode.callExpr (Callee.ident "require")
        [ArgNode.literal (LitValue.str "../common/index.mjs")],
       ASTNode.callExpr (Callee.ident "require")
        [ArgNode.literal (LitValue.str "./fs")]] = [] ∧
      basename "./fs.js" = "fs.js" := by
  refine ⟨by decide, by decide⟩

/-- C4 (counterexample): trimming does not happen in declarative-import mode:
with `required = ["fs"]`, an import whose source is `" fs"` (leading space) is
resolved untrimmed — `getRequiredModuleName` yields nothing and the analysis
reports `"fs"` missing — whereas the spec's trim-first resolver
(`specCanonicalResolve`) would yield `fs`. -/
theorem c4_counterexample :
    analyze ⟨["fs"], true⟩ [ASTNode.importDecl " fs"] = ["fs"] ∧
      getRequiredModuleName ["fs"] " fs" = none ∧
      specCanonicalResolve ["fs"] " fs" = some "fs" := by
  refine ⟨by decide, by decide, by decide⟩

/-- C4 (amended): trimming belongs to the call-style path only: the
`CallExpression` handler resolves the trimmed first-argument value, while the
`ImportDeclaration` handler resolves the source value untrimmed. On its input
the resolver returns `common` when the value equals `'../common/index.mjs'`
and otherwise returns the basename exactly when that basename is a member of
`RequiredModuleSet` (nothing otherwise). Concretely, source `" fs"` with
`required = ["fs"]` is reported missing in declarative mode but found in
call-style mode. -/
theorem c4_amended_trim_only_in_call_mode (required found : List String)
    (s : String) (rest : List ArgNode) :
    getRequiredModuleNameFromCall required
        (ArgNode.literal (LitValue.str s) :: rest) =
        getRequiredModuleName required (jsTrim s) ∧
      importDeclarationVisit required found (ASTNode.importDecl s) =
        pushIfTruthy found (getRequiredModuleName required s) ∧
      getRequiredModuleName required s =
        (if s = "../common/index.mjs" then some "common"
         else if required.contains (basename s) then some (basename s)
         else none) ∧
      analyze ⟨["fs"], true⟩ [ASTNode.importDecl " fs"] = ["fs"] ∧
      analyze ⟨["fs"], false⟩
        [ASTNode.callExpr (Callee.ident "require")
          [ArgNode.literal (LitValue.str " fs")]] = [] := by
  refine ⟨rfl, rfl, rfl, by decide, by decide⟩

/-- C5 (confirmed): whenever the accumulated `foundModules` is at least as
long as `requiredModules` at end of traversal, the analysis emits no
diagnostic at all — the set difference is computed only under the
`foundModules.length < requiredModules.length` guard, and duplicates or the
unconditional `"common"` alias entry can reach the guard while a required
module is still missing. -/
theorem c5_length_guard_suppresses_all (ctx : Context) (file : List ASTNode)
    (h : ctx.options.length ≤ (runTraversal ctx file).length) :
    analyze ctx file = [] := by
  unfold analyze
  split
  · rfl
  · unfold programExit
    rw [if_neg (Nat.not_lt.mpr h)]

/-- C5 (witness): `required = ["a"]`, script-mode file whose single call
`require('../common/index.mjs')` pushes the alias entry `"common"`:
`foundModules` reaches the required length, the analysis reports nothing, yet
`"a"` was never found. -/
theorem c5_length_guard_witness :
    (⟨["a"], false⟩ : Context).options.length ≤
        (runTraversal ⟨["a"], false⟩
          [ASTNode.callExpr (Callee.ident "require")
            [ArgNode.literal (LitValue.str "../common/index.mjs")]]).length ∧
      analyze ⟨["a"], false⟩
        [ASTNode.callExpr (Callee.ident "require")
          [ArgNode.literal (LitValue.str "../common/index.mjs")]] = [] ∧
      "a" ∉ runTraversal ⟨["a"], false⟩
        [ASTNode.callExpr (Callee.ident "require")
          [ArgNode.literal (LitValue.str "../common/index.mjs")]] := by
  refine ⟨by decide, ?_, by decide⟩
  exact c5_length_guard_suppresses_all ⟨["a"], false⟩
    [ASTNode.callExpr (Callee.ident "require")
      [ArgNode.literal (LitValue.str "../common/index.mjs")]] (by decide)

/-- C6 (confirmed): the literal path `'../common/index.mjs'` always resolves
to the canonical name `common`, for every configured required-module list —
whether or not `"common"` is in it — and when such a `require` call is
visited, `"common"` is appended to `foundModules`. -/
theorem c6_alias_always_common (required found : List String) :
    getRequiredModuleName required "../common/index.mjs" = some "common" ∧
      callExpressionVisit required found
        (ASTNode.callExpr (Callee.ident "require")
          [ArgNode.literal (LitValue.str "../common/index.mjs")]) =
        found ++ ["common"] := by
  exact ⟨rfl, rfl⟩

/-- C7 (confirmed): a call expression contributes to `foundModules` only when
its callee is a bare identifier named exactly `require` and its first argument
exists and is a string literal; a non-`require` callee, a missing argument
list, a non-literal first argument, and a non-string literal all contribute
nothing. Concretely, a script-mode file containing only
`doRequire("./fs.js")` with `required = ["fs"]` yields one diagnostic, for
`"fs"`. -/
theorem c7_call_classification (required found : List String) (callee : Callee)
    (args : List ArgNode) :
    (isRequireCall callee = false →
        callExpressionVisit required found (ASTNode.callExpr callee args) =
          found) ∧
      (getRequiredModuleNameFromCall required args = none →
        callExpressionVisit required found (ASTNode.callExpr callee args) =
          found) ∧
      getRequiredModuleNameFromCall required [] = none ∧
      (∀ rest : List ArgNode,
        getRequiredModuleNameFromCall required (ArgNode.nonLiteral :: rest) =
          none) ∧
      (∀ rest : List ArgNode,
        getRequiredModuleNameFromCall required
          (ArgNode.literal LitValue.nonStr :: rest) = none) ∧
      analyze ⟨["fs"], false⟩
        [ASTNode.callExpr (Callee.ident "doRequire")
          [ArgNode.literal (LitValue.str "./fs.js")]] = ["fs"] := by
  have e : callExpressionVisit required found (ASTNode.callExpr callee args) =
      if isRequireCall callee then
        pushIfTruthy found (getRequiredModuleNameFromCall required args)
      else found := rfl
  refine ⟨?_, ?_, rfl, fun rest => rfl, fun rest => rfl, by decide⟩
  · intro h
    rw [e, if_neg (by rw [h]; exact Bool.false_ne_true)]
  · intro h
    rw [e, h]
    split
    · rfl
    · rfl

/-- C7 (witness): `doRequire("./fs.js")` is not classified as a reference
(its visit leaves `foundModules` empty), and the file yields exactly the
diagnostic for `"fs"`. -/
theorem c7_call_classification_witness :
    callExpressionVisit ["fs"] []
        (ASTNode.callExpr (Callee.ident "doRequire")
          [ArgNode.literal (LitValue.str "./fs.js")]) = [] ∧
      analyze ⟨["fs"], false⟩
        [ASTNode.callExpr (Callee.ident "doRequire")
          [ArgNode.literal (LitValue.str "./fs.js")]] = ["fs"] := by
  refine ⟨?_, ?_⟩
  · exact (c7_call_classification ["fs"] [] (Callee.ident "doRequire")
      [ArgNode.literal (LitValue.str "./fs.js")]).1 (by decide)
  · exact (c7_call_classification ["fs"] [] (Callee.ident "doRequire")
      [ArgNode.literal (LitValue.str "./fs.js")]).2.2.2.2.2

/-- C8 (counterexample): the claim fails at the empty-string edge: with
`required = [""]`, a declarative file importing `"/"` covers the required set
by basename (`basename "/" = ""`), yet one diagnostic is produced — the
resolved empty name is falsy in JavaScript, so `if (requiredModuleName)`
drops it and `""` is reported missing. -/
theorem c8_counterexample :
    ((importSources [ASTNode.importDecl "/"]).map basename).Perm [""] ∧
      analyze ⟨[""], true⟩ [ASTNode.importDecl "/"] = [""] := by
  refine ⟨by decide, by decide⟩

/-- C8 (amended): for every declarative-import-mode file whose import sources'
basenames are a permutation of the required set — provided the empty string is
not a required name — zero diagnostics are produced; since the hypothesis is
invariant under permuting the import declarations, the verdict is independent
of import order. -/
theorem c8_amended_cover_zero_diagnostics (required : List String)
    (file : List ASTNode)
    (h1 : ((importSources file).map basename).Perm required)
    (h2 : "" ∉ required) :
    analyze ⟨required, true⟩ file = [] := by
  have hall : ∀ s ∈ importSources file,
      ∃ n, getRequiredModuleName required s = some n ∧ n ≠ "" := by
    intro s hs
    by_cases ha : s = "../common/index.mjs"
    · refine ⟨"common", ?_, by decide⟩
      rw [ha]
      rfl
    · have hb : basename s ∈ required :=
        h1.mem_iff.mp (List.mem_map_of_mem basename hs)
      refine ⟨basename s, ?_, fun h0 => h2 (h0 ▸ hb)⟩
      unfold getRequiredModuleName
      rw [if_neg ha]
      simp only
      rw [if_pos (List.elem_iff.mpr hb)]
  have hlen : (runTraversal ⟨required, true⟩ file).length = required.length := by
    unfold runTraversal
    rw [esm_foldl_length required file [] hall]
    simp only [List.length_nil, Nat.zero_add]
    rw [← h1.length_eq, List.length_map]
  unfold analyze
  split
  · rfl
  · unfold programExit
    rw [if_neg]
    rw [hlen]
    exact Nat.lt_irrefl required.length

/-- C8 (witness): `required = ["common", "fs"]`, declarative file importing
`./b/fs` and `x/common` (with an unrelated node in between): the basenames
cover the required set and the analysis reports nothing. -/
theorem c8_amended_witness :
    ((importSources [ASTNode.importDecl "./b/fs", ASTNode.otherNode,
          ASTNode.importDecl "x/common"]).map basename).Perm
        ["common", "fs"] ∧
      "" ∉ (["common", "fs"] : List String) ∧
      analyze ⟨["common", "fs"], true⟩
        [ASTNode.importDecl "./b/fs", ASTNode.otherNode,
          ASTNode.importDecl "x/common"] = [] := by
  refine ⟨by decide, by decide, ?_⟩
  exact c8_amended_cover_zero_diagnostics ["common", "fs"]
    [ASTNode.importDecl "./b/fs", ASTNode.otherNode,
      ASTNode.importDecl "x/common"] (by decide) (by decide)

/-- C9 (confirmed): with an empty required-module list the rule registers no
handlers at all — not even `Program:exit` — and analyzing any file in either
mode produces zero diagnostics. -/
theorem c9_empty_config_noop (b : Bool) :
    registeredRules ⟨[], b⟩ = ⟨false, false, false⟩ ∧
      ∀ file : List ASTNode, analyze ⟨[], b⟩ file = [] :=
  ⟨rfl, fun _ => rfl⟩

/-- C10 (confirmed): at every point of the traversal — equivalently, after
every prefix of the node stream — each element of `foundModules` is either
`"common"` or a member of `requiredModules`, and `foundModules` is
append-only: extending the traversal only appends a suffix, never shrinking
or reordering what was already accumulated. -/
theorem c10_foundModules_invariant (ctx : Context) (file : List ASTNode) :
    (∀ x ∈ runTraversal ctx file, x = "common" ∨ x ∈ ctx.options) ∧
      ∀ rest : List ASTNode, ∃ t : List String,
        runTraversal ctx (file ++ rest) = runTraversal ctx file ++ t := by
  constructor
  · intro x hx
    rcases mem_foldl_visit ctx file [] x hx with h | h
    · exact absurd h (List.not_mem_nil x)
    · exact h
  · intro rest
    refine ⟨List.foldl (visit ctx) [] rest, ?_⟩
    unfold runTraversal
    rw [List.foldl_append]
    exact foldl_visit_append ctx rest (List.foldl (visit ctx) [] file)

/-- C10 (witness): with `required = ["fs"]` and a script file calling
`require('./a/fs')`, the accumulated entry `"fs"` is indeed `"common"` or a
required name, and appending one more node to the traversal only appends to
`foundModules`. -/
theorem c10_foundModules_invariant_witness :
    ("fs" = "common" ∨ "fs" ∈ (⟨["fs"], false⟩ : Context).options) ∧
      ∃ t : List String,
        runTraversal ⟨["fs"], false⟩
            ([ASTNode.callExpr (Callee.ident "require")
              [ArgNode.literal (LitValue.str "./a/fs")]] ++
              [ASTNode.otherNode]) =
          runTraversal ⟨["fs"], false⟩
            [ASTNode.callExpr (Callee.ident "require")
              [ArgNode.literal (LitValue.str "./a/fs")]] ++ t := by
  refine ⟨?_, ?_⟩
  · exact (c10_foundModules_invariant ⟨["fs"], false⟩
      [ASTNode.callExpr (Callee.ident "require")
        [ArgNode.literal (LitValue.str "./a/fs")]]).1 "fs" (by decide)
  · exact (c10_foundModules_invariant ⟨["fs"], false⟩
      [ASTNode.callExpr (Callee.ident "require")
        [ArgNode.literal (LitValue.str "./a/fs")]]).2 [ASTNode.otherNode]

end RequiredModules
